import Mathlib

/-!
Shallow embedding of the translation request batching layer of the
vid-read repository, together with proofs of its specified properties.

Two implementations exist in the repository:

* the docs variant, `src/docs/lib/translation-batcher.ts` (class
  `TranslationBatcher` with cache, language grouping, retry/backoff and
  fallback-to-original semantics), and
* the lib variant, `src/lib/translation-batcher.ts` (also duplicated as an
  unnamed source file), a smaller batcher with a fixed target language that
  rejects its requests on failure.

The JavaScript code is single-threaded and event-loop based; every
synchronous segment between two suspension points (`await`s) is embedded as
a pure Lean function on an explicit state, and the interleaving of those
segments is a step relation over events.  Machine numbers in the source are
JavaScript numbers used only as small non-negative counters and millisecond
durations, embedded as `Nat`.
-/

namespace VidRead

/-- One queued request of the docs-variant batcher
(`interface TranslationRequest` in `src/docs/lib/translation-batcher.ts`):
the payload fields of the queue entry.  The `resolve`/`reject` callbacks are
represented by the `Outcome` eventually produced for the request. -/
structure TranslationRequest where
  text : String
  cacheKey : String
  targetLanguage : String
  context : Option String := none
deriving Repr, DecidableEq

/-- What the batcher eventually does with a request's promise: call its
`resolve` callback with a value, or its `reject` callback with an error. -/
inductive Outcome where
  | resolved (value : String)
  | rejected (msg : String)
deriving Repr, DecidableEq

/-- Helper for `String.prototype.includes` on explicit character lists:
`pat` occurs somewhere in the character list. -/
def charsInclude (pat : List Char) : List Char → Bool
  | [] => pat.isEmpty
  | c :: rest => pat.isPrefixOf (c :: rest) || charsInclude pat rest

/-- JavaScript `s.includes(pat)`. -/
def strIncludes (s pat : String) : Bool :=
  charsInclude pat.data s.data

/-- The rate-limit test applied to error messages in the `catch` block of
`translateLanguageGroup` and before invoking `onError`:
`errorMessage.includes('429') || errorMessage.includes('rate limit')`. -/
def isRateLimitMessage (msg : String) : Bool :=
  strIncludes msg "429" || strIncludes msg "rate limit"

/-- The message of the error thrown when the retry budget is exhausted
(line 251 of the docs batcher). -/
def rateLimitExceededMsg (maxRetries : Nat) : String :=
  "Translation API rate limit exceeded after " ++ toString maxRetries ++ " retries"

/-- The message of the error thrown for a non-ok, non-429 HTTP status
(line 255 of the docs batcher). -/
def apiErrorMsg (status : Nat) : String :=
  "Translation API error: " ++ toString status

/-- `getBackoffDelay(attempt, retryAfter)` of the docs batcher.
`if (retryAfter) return retryAfter * 1000` uses JavaScript truthiness, so a
supplied value of `0` (and a `NaN` from an unparsable header, embedded as
`none`) falls through to `Math.min(1000 * Math.pow(2, attempt), 10000)`. -/
def getBackoffDelay (attempt : Nat) (retryAfter : Option Nat) : Nat :=
  match retryAfter with
  | some r => if r ≠ 0 then r * 1000 else min (1000 * 2 ^ attempt) 10000
  | none => min (1000 * 2 ^ attempt) 10000

/-- One network interaction of an attempt of the retry loop, as the code
distinguishes the cases: an ok response carrying `data.translations`; a 429
response with its parsed `Retry-After` header (`none` when the header is
absent or `parseInt` gives `NaN`); a non-ok response with another status; or
an exception thrown by `fetch`/`json` with its message. -/
inductive NetResponse where
  | ok (translations : List String)
  | rateLimited (retryAfter : Option Nat)
  | httpError (status : Nat)
  | thrown (msg : String)
deriving Repr, DecidableEq

/-- How the retry loop of `translateLanguageGroup` exits: the successful
response's translations, or the message of `lastError`. -/
inductive LoopExit where
  | success (translations : List String)
  | failure (lastErrorMsg : String)
deriving Repr, DecidableEq

/-- The retry loop `for (attempt = 0; attempt <= maxRetries; attempt++)` of
`translateLanguageGroup`.  `net n` is the network interaction of the n-th
call.  Returns (number of network calls made, backoff sleeps performed,
exit).  The loop body runs at most `maxRetries + 1` times, so it is embedded
with a fuel parameter; the entry point supplies fuel `maxRetries + 1`, and
the fuel never reaches 0 (the `0` case below is unreachable from the entry
point because the loop recurses only while `attempt < maxRetries`). -/
def attemptLoop (maxRetries : Nat) (net : Nat → NetResponse) :
    Nat → Nat → Nat × List Nat × LoopExit
  | _, 0 => (0, [], .failure "")
  | attempt, fuel + 1 =>
    match net attempt with
    | .ok translations => (1, [], .success translations)
    | .rateLimited retryAfter =>
      if attempt < maxRetries then
        let delay := getBackoffDelay attempt retryAfter
        let rest := attemptLoop maxRetries net (attempt + 1) fuel
        (rest.1 + 1, delay :: rest.2.1, rest.2.2)
      else
        (1, [], .failure (rateLimitExceededMsg maxRetries))
    | .httpError status =>
      if attempt == maxRetries then (1, [], .failure (apiErrorMsg status))
      else if isRateLimitMessage (apiErrorMsg status) then
        let rest := attemptLoop maxRetries net (attempt + 1) fuel
        (rest.1 + 1, rest.2.1, rest.2.2)
      else (1, [], .failure (apiErrorMsg status))
    | .thrown msg =>
      if attempt == maxRetries then (1, [], .failure msg)
      else if isRateLimitMessage msg then
        let rest := attemptLoop maxRetries net (attempt + 1) fuel
        (rest.1 + 1, rest.2.1, rest.2.2)
      else (1, [], .failure msg)

/-- Helper for `Array.from(new Set(xs))`: walk `xs` keeping each element
not already seen, in order. -/
def dedupFirstAux (seen : List String) : List String → List String
  | [] => []
  | x :: xs =>
    if seen.contains x then dedupFirstAux seen xs
    else x :: dedupFirstAux (x :: seen) xs

/-- `Array.from(new Set(xs))`: the distinct elements of `xs` in order of
first occurrence (JavaScript `Set` iteration order is insertion order). -/
def dedupFirst (xs : List String) : List String :=
  dedupFirstAux [] xs

/-- `translations[index] || text`: the value stored in the translation map
for a unique text.  An out-of-range index reads `undefined` and the empty
string is falsy; both fall back to `text`. -/
def mappedTranslation (translations : List String) (index : Nat) (text : String) : String :=
  match translations.get? index with
  | some t => if t = "" then text else t
  | none => text

/-- The entries produced by
`uniqueTexts.forEach((text, index) => translationMap.set(text, translations[index] || text))`
starting at index `i`.  `uniqueTexts` is `dedupFirst` of the group's texts
and therefore has no duplicates, so the resulting `Map` holds exactly these
entries. -/
def translationMapEntriesFrom (translations : List String) :
    Nat → List String → List (String × String)
  | _, [] => []
  | i, text :: rest =>
    (text, mappedTranslation translations i text) ::
      translationMapEntriesFrom translations (i + 1) rest

/-- The full translation map of a successful attempt. -/
def translationMapEntries (translations uniqueTexts : List String) :
    List (String × String) :=
  translationMapEntriesFrom translations 0 uniqueTexts

/-- `Map.prototype.get` on an association list (first matching key). -/
def mapGet? (entries : List (String × String)) (key : String) : Option String :=
  (entries.find? (fun p => p.1 == key)).map Prod.snd

/-- `translationMap.get(request.text) || request.text`: the value a request
resolves with (and that is written to the cache) on a successful attempt. -/
def resolveValue (uniqueTexts translations : List String) (text : String) : String :=
  match mapGet? (translationMapEntries translations uniqueTexts) text with
  | some v => if v = "" then text else v
  | none => text

/-- Observable result of `translateLanguageGroup` for one language group:
the texts arrays passed to the network (one per attempt), the backoff sleeps
performed, the `onError` invocation that happens when an `onError` callback
was provided, the outcome of every request (in request order), and the cache
writes performed (in order). -/
structure GroupResult where
  calls : List (List String)
  sleeps : List Nat
  errorCallback : Option (String × Bool)
  outcomes : List Outcome
  cacheWrites : List (String × String)
deriving Repr, DecidableEq

/-- `translateLanguageGroup(targetLanguage, requests)` of the docs batcher.
Every attempt posts the same `uniqueTexts` array.  On success every request
resolves with `translationMap.get(request.text) || request.text` and the
same value is written to the cache under its `cacheKey`; after the retry
loop fails, `onError` is invoked with the last error and the rate-limit
test of its message, and every request resolves with its original text. -/
def translateLanguageGroup (maxRetries : Nat) (net : Nat → NetResponse)
    (requests : List TranslationRequest) : GroupResult :=
  let uniqueTexts := dedupFirst (requests.map (fun r => r.text))
  let run := attemptLoop maxRetries net 0 (maxRetries + 1)
  match run.2.2 with
  | .success translations =>
    { calls := List.replicate run.1 uniqueTexts
      sleeps := run.2.1
      errorCallback := none
      outcomes := requests.map
        (fun r => .resolved (resolveValue uniqueTexts translations r.text))
      cacheWrites := requests.map
        (fun r => (r.cacheKey, resolveValue uniqueTexts translations r.text)) }
  | .failure msg =>
    { calls := List.replicate run.1 uniqueTexts
      sleeps := run.2.1
      errorCallback := some (msg, isRateLimitMessage msg)
      outcomes := requests.map (fun r => .resolved r.text)
      cacheWrites := [] }

/-- One queue entry of the lib-variant batcher
(`src/lib/translation-batcher.ts`): only the text is payload. -/
structure LibRequest where
  text : String
deriving Repr, DecidableEq

/-- Result of the body of the lib variant's `processBatch` `try` block: the
parsed `translations` array, or the error thrown anywhere inside it
(missing API key, non-ok response, empty LLM content, JSON parse failure,
or a rejected fetch). -/
inductive LibNetResult where
  | ok (translations : List String)
  | err (msg : String)
deriving Repr, DecidableEq

/-- The success fan-out of the lib variant:
`batch.forEach((item, index) => item.resolve(translations[index] || item.text))`,
starting at index `i`. -/
def libResolveFrom (translations : List String) :
    Nat → List LibRequest → List Outcome
  | _, [] => []
  | i, item :: rest =>
    .resolved (mappedTranslation translations i item.text) ::
      libResolveFrom translations (i + 1) rest

/-- The outcomes `processBatch` of the lib variant produces for its batch:
on success each item resolves with `translations[index] || item.text`; on
any error the `catch` block runs `batch.forEach((item) => item.reject(error))`. -/
def libProcessBatchOutcomes (res : LibNetResult) (batch : List LibRequest) :
    List Outcome :=
  match res with
  | .ok translations => libResolveFrom translations 0 batch
  | .err msg => batch.map (fun _ => .rejected msg)

/-! ### The caller-owned cache (a JavaScript `Map<string, string>`) -/

/-- The externally owned result cache, as an association list with the
`Map` insertion-order/overwrite semantics. -/
abbrev Cache := List (String × String)

/-- `Map.prototype.set`: overwrite the value of an existing key in place,
otherwise append the new entry. -/
def cacheSet : Cache → String → String → Cache
  | [], k, v => [(k, v)]
  | (k0, v0) :: rest, k, v =>
    if k0 == k then (k, v) :: rest else (k0, v0) :: cacheSet rest k v

/-- `Map.prototype.get`. -/
def cacheGet? (c : Cache) (k : String) : Option String :=
  (c.find? (fun p => p.1 == k)).map Prod.snd

/-- `Map.prototype.has`. -/
def cacheHas (c : Cache) (k : String) : Bool :=
  (c.find? (fun p => p.1 == k)).isSome

/-- Apply the `cache.set` calls of a group's success fan-out in order. -/
def applyCacheWrites (c : Cache) : List (String × String) → Cache
  | [] => c
  | (k, v) :: ws => applyCacheWrites (cacheSet c k v) ws

/-! ### The scheduler / batch-executor state machine (docs variant)

The code is single-threaded: each synchronous segment between suspension
points runs atomically.  `processNextBatch` is synchronous from its
`processing` guard up to `await this.executeBatch(batch)` — that prefix is
`processNextBatchEnter` — and its `finally` block runs when `executeBatch`
has fully returned (including the retry loops of every language group) —
that suffix is `processNextBatchFinally`.  The interleaving of these
segments with `translate` calls, timer firings and `clear` is the event
step function `stepEvent`. -/

/-- The constructor configuration of the docs batcher (defaults from the
constructor signature; the constructor validates
`1 ≤ maxBatchSize ≤ 10000`). -/
structure Config where
  batchDelay : Nat := 20
  maxBatchSize : Nat := 1000
  maxRetries : Nat := 3
  batchThrottleMs : Nat := 200
deriving Repr, DecidableEq

/-- The mutable state of a docs-variant batcher instance, plus two
bookkeeping components of the event-loop model: `retriggers` counts the
pending anonymous `setTimeout(() => this.processNextBatch(), 0)` callbacks
created by the `finally` block (these are *not* stored in
`scheduledTimeout`), and `dispatched` logs, in order, every request handed
to `executeBatch`. -/
structure BatcherState where
  queue : List TranslationRequest
  processing : Bool
  scheduled : Bool
  retriggers : Nat
  inFlight : List (List TranslationRequest)
  cache : Cache
  dispatched : List TranslationRequest
deriving Repr, DecidableEq

/-- The `finally` block of `processNextBatch`: release the lock and, if the
queue is non-empty, schedule another zero-delay execution. -/
def processNextBatchFinally (s : BatcherState) : BatcherState :=
  let s1 := { s with processing := false }
  if s1.queue.isEmpty then s1 else { s1 with retriggers := s1.retriggers + 1 }

/-- The synchronous prefix of `processNextBatch`: the `processing` guard,
setting the lock, clearing the scheduled timeout, splicing the batch out of
the queue, and — when the batch is empty — returning through `finally`.
A non-empty batch is handed to `executeBatch` (recorded in `inFlight` and
`dispatched`); its completion is a separate event. -/
def processNextBatchEnter (cfg : Config) (s : BatcherState) : BatcherState :=
  if s.processing then s
  else
    let s1 := { s with processing := true, scheduled := false }
    let batch := s1.queue.take cfg.maxBatchSize
    let s2 := { s1 with queue := s1.queue.drop cfg.maxBatchSize }
    if batch.isEmpty then processNextBatchFinally s2
    else { s2 with inFlight := batch :: s2.inFlight,
                   dispatched := s2.dispatched ++ batch }

/-- `maybeStartBatch()`: full queue and idle starts immediately; already
processing does nothing; otherwise schedule the debounce timer if none is
scheduled. -/
def maybeStartBatch (cfg : Config) (s : BatcherState) : BatcherState :=
  if cfg.maxBatchSize ≤ s.queue.length ∧ s.processing = false then
    processNextBatchEnter cfg s
  else if s.processing then s
  else if s.scheduled then s
  else { s with scheduled := true }

/-- What a `translate()` call returns: the cached value (a synchronously
resolved promise), or a fresh pending promise after enqueueing. -/
inductive TranslateOutcome where
  | hit (value : String)
  | enqueued
deriving Repr, DecidableEq

/-- `translate(text, cacheKey, targetLanguage, context?)`: cache check
first; on a miss, push the request and invoke `maybeStartBatch`. -/
def translate (cfg : Config) (s : BatcherState) (req : TranslationRequest) :
    TranslateOutcome × BatcherState :=
  if cacheHas s.cache req.cacheKey then
    (.hit ((cacheGet? s.cache req.cacheKey).getD ""), s)
  else
    (.enqueued, maybeStartBatch cfg { s with queue := s.queue ++ [req] })

/-- `clear()`: cancel the scheduled timeout and empty the queue.  The cache,
the `processing` flag, any in-flight batch and the pending zero-delay
retriggers are untouched, and no queued request is resolved or rejected. -/
def clear (s : BatcherState) : BatcherState :=
  { s with scheduled := false, queue := [] }

/-- The events that drive a batcher instance: a `translate()` call, the
debounce timer firing, a zero-delay retrigger firing, the completion of an
in-flight `executeBatch` (carrying the cache writes its language groups
performed), and a `clear()` call. -/
inductive Event where
  | call (req : TranslationRequest)
  | timerFire
  | retriggerFire
  | execDone (writes : List (String × String))
  | doClear
deriving Repr, DecidableEq

/-- One atomic synchronous segment of the event loop. -/
def stepEvent (cfg : Config) (s : BatcherState) : Event → BatcherState
  | .call req => (translate cfg s req).2
  | .timerFire =>
    if s.scheduled then processNextBatchEnter cfg { s with scheduled := false }
    else s
  | .retriggerFire =>
    match s.retriggers with
    | n + 1 => processNextBatchEnter cfg { s with retriggers := n }
    | 0 => s
  | .execDone writes =>
    match s.inFlight with
    | _ :: rest =>
      processNextBatchFinally
        { s with inFlight := rest, cache := applyCacheWrites s.cache writes }
    | [] => s
  | .doClear => clear s

/-- A freshly constructed batcher over the caller's cache. -/
def initState (cache0 : Cache) : BatcherState :=
  { queue := [], processing := false, scheduled := false, retriggers := 0,
    inFlight := [], cache := cache0, dispatched := [] }

/-- The states a batcher instance can reach from construction. -/
inductive Reachable (cfg : Config) : BatcherState → Prop where
  | init (cache0 : Cache) : Reachable cfg (initState cache0)
  | step {s : BatcherState} (h : Reachable cfg s) (e : Event) :
      Reachable cfg (stepEvent cfg s e)

/-- `groupByLanguage(batch)` inner Map update:
`existing = grouped.get(lang) || []; existing.push(request); grouped.set(lang, existing)` —
an existing key keeps its position, a new key is appended. -/
def groupUpsert (m : List (String × List TranslationRequest))
    (lang : String) (r : TranslationRequest) :
    List (String × List TranslationRequest) :=
  match m with
  | [] => [(lang, [r])]
  | (k, rs) :: rest =>
    if k == lang then (k, rs ++ [r]) :: rest
    else (k, rs) :: groupUpsert rest lang r

/-- `groupByLanguage(batch)` of `executeBatch`: the language groups of a
batch in insertion order of first occurrence, each holding its requests in
batch order. -/
def groupByLanguage (batch : List TranslationRequest) :
    List (String × List TranslationRequest) :=
  batch.foldl (fun m r => groupUpsert m r.targetLanguage r) []

/-! ### Basic lemmas -/

theorem charsInclude_append (pat s t : List Char) (h : charsInclude pat s = true) :
    charsInclude pat (s ++ t) = true := by
  induction s with
  | nil =>
    cases pat with
    | nil => cases t <;> simp [charsInclude, List.isPrefixOf]
    | cons c cs => simp [charsInclude, List.isEmpty] at h
  | cons c cs ih =>
    simp only [charsInclude, Bool.or_eq_true] at h ⊢
    rcases h with h | h
    · left
      rw [List.isPrefixOf_iff_prefix] at h ⊢
      exact h.trans (List.prefix_append (c :: cs) t)
    · right
      exact ih h

theorem isRateLimitMessage_exceeded (m : Nat) :
    isRateLimitMessage (rateLimitExceededMsg m) = true := by
  have h1 : charsInclude "rate limit".data
      "Translation API rate limit exceeded after ".data = true := by decide
  have h2 : strIncludes (rateLimitExceededMsg m) "rate limit" = true := by
    unfold rateLimitExceededMsg strIncludes
    rw [String.data_append, String.data_append, List.append_assoc]
    exact charsInclude_append _ _ _ h1
  unfold isRateLimitMessage
  rw [h2, Bool.or_true]

/-! ### C7 — backoff delay -/

/-- C7 counterexample: the claim says a server-supplied retry-after of `r`
seconds always yields a delay of `r × 1000` ms, but JavaScript truthiness
makes a supplied `Retry-After: 0` fall through to exponential backoff:
`getBackoffDelay(0, 0)` is `1000`, not `0 × 1000 = 0`. -/
theorem claim7_counterexample :
    getBackoffDelay 0 (some 0) = 1000 ∧ getBackoffDelay 0 (some 0) ≠ 0 * 1000 := by
  decide

/-- C7 (amended): for every attempt number `a`, the backoff delay equals
`retryAfterSeconds × 1000` ms when the server supplied a *nonzero*
retry-after value, and otherwise (header absent, unparsable, or zero — all
falsy in JavaScript) equals `min(1000 × 2^a, 10000)` ms. -/
theorem claim7 :
    (∀ a r : Nat, r ≠ 0 → getBackoffDelay a (some r) = r * 1000)
    ∧ (∀ a : Nat, getBackoffDelay a none = min (1000 * 2 ^ a) 10000)
    ∧ (∀ a : Nat, getBackoffDelay a (some 0) = min (1000 * 2 ^ a) 10000) := by
  refine ⟨fun a r hr => ?_, fun a => rfl, fun a => by simp [getBackoffDelay]⟩
  simp [getBackoffDelay, hr]

/-- C7 witness: the amended statement evaluated at attempt 2 with a
supplied retry-after of 5 s, and at attempt 2 with no retry-after. -/
theorem claim7_witness :
    getBackoffDelay 2 (some 5) = 5000 ∧ getBackoffDelay 2 none = 4000 := by
  constructor
  · rw [claim7.1 2 5 (by decide)]
  · rw [claim7.2.1 2]
    decide

/-! ### C6 — cache short-circuit in `translate` -/

/-- C6: when `cache.has(cacheKey)` holds, `translate` returns the cached
value for that key and leaves the entire state — queue, pending timer,
cache, and everything else — unchanged; nothing is enqueued and no batch is
started. -/
theorem claim6 (cfg : Config) (s : BatcherState) (req : TranslationRequest)
    (h : cacheHas s.cache req.cacheKey = true) :
    ∃ v, cacheGet? s.cache req.cacheKey = some v
      ∧ translate cfg s req = (.hit v, s) := by
  unfold cacheHas at h
  rw [Option.isSome_iff_exists] at h
  obtain ⟨p, hp⟩ := h
  refine ⟨p.2, ?_, ?_⟩
  · simp [cacheGet?, hp]
  · simp [translate, cacheHas, cacheGet?, hp]

/-- C6 witness: a concrete hit on key `"k"`. -/
theorem claim6_witness :
    ∃ v, cacheGet? (initState [("k", "V")]).cache "k" = some v
      ∧ translate {} (initState [("k", "V")])
          { text := "a", cacheKey := "k", targetLanguage := "es" }
          = (.hit v, initState [("k", "V")]) :=
  claim6 {} (initState [("k", "V")])
    { text := "a", cacheKey := "k", targetLanguage := "es" } (by decide)

/-! ### C8 — `clear()` semantics -/

/-- C8: `clear()` empties the queue and cancels the scheduled debounce
timer while leaving the cache, the `processing` flag, any in-flight batch,
the dispatch log (so the abandoned queued requests are never dispatched,
hence neither resolved nor rejected) and the pending zero-delay retriggers
untouched; and a batch already mid-execution still completes after
`clear()`: its `executeBatch` completion still pops it, still applies its
cache writes, and still releases the lock. -/
theorem claim8 (cfg : Config) :
    (∀ s : BatcherState,
       (clear s).queue = [] ∧ (clear s).scheduled = false
         ∧ (clear s).cache = s.cache ∧ (clear s).processing = s.processing
         ∧ (clear s).inFlight = s.inFlight
         ∧ (clear s).dispatched = s.dispatched
         ∧ (clear s).retriggers = s.retriggers)
    ∧ (∀ (s : BatcherState) (b : List TranslationRequest)
         (rest : List (List TranslationRequest)) (ws : List (String × String)),
         s.inFlight = b :: rest →
           (stepEvent cfg (clear s) (.execDone ws)).inFlight = rest
             ∧ (stepEvent cfg (clear s) (.execDone ws)).processing = false
             ∧ (stepEvent cfg (clear s) (.execDone ws)).cache
                 = applyCacheWrites s.cache ws) := by
  constructor
  · intro s
    simp [clear]
  · intro s b rest ws h
    simp [stepEvent, clear, h, processNextBatchFinally]

/-- A concrete request shared by the witnesses below. -/
def sampleReq : TranslationRequest :=
  { text := "hello", cacheKey := "k1", targetLanguage := "es" }

/-- A concrete mid-flight batcher state shared by the witnesses below. -/
def sampleState : BatcherState :=
  { queue := [sampleReq], processing := true, scheduled := true,
    retriggers := 2, inFlight := [[sampleReq]], cache := [("k0", "V")],
    dispatched := [sampleReq] }

/-- C8 witness: `clear()` evaluated on a concrete mid-flight state, and the
in-flight batch of that state completing after the `clear()`. -/
theorem claim8_witness :
    ((clear sampleState).queue = [] ∧ (clear sampleState).scheduled = false
       ∧ (clear sampleState).cache = sampleState.cache
       ∧ (clear sampleState).processing = sampleState.processing
       ∧ (clear sampleState).inFlight = sampleState.inFlight
       ∧ (clear sampleState).dispatched = sampleState.dispatched
       ∧ (clear sampleState).retriggers = sampleState.retriggers)
    ∧ ((stepEvent {} (clear sampleState) (.execDone [("k1", "HOLA")])).inFlight = []
         ∧ (stepEvent {} (clear sampleState) (.execDone [("k1", "HOLA")])).processing = false
         ∧ (stepEvent {} (clear sampleState) (.execDone [("k1", "HOLA")])).cache
             = applyCacheWrites sampleState.cache [("k1", "HOLA")]) :=
  ⟨(claim8 {}).1 sampleState,
   (claim8 {}).2 sampleState [sampleReq] [] [("k1", "HOLA")] rfl⟩

/-! ### C2 — failures and promise rejection -/

/-- C2 counterexample: the claim says no variant of the batcher ever
rejects a `translate()` promise on batch failure, but the lib variant's
`processBatch` runs `batch.forEach((item) => item.reject(error))` in its
`catch` block: a failed batch rejects every request in it. -/
theorem claim2_counterexample :
    libProcessBatchOutcomes
        (.err "Translation failed: 500 Internal Server Error - upstream")
        [{ text := "hello" }]
      = [.rejected "Translation failed: 500 Internal Server Error - upstream"] := rfl

/-- C2 (amended): in the docs-variant batcher a batch failure never causes
a request's promise to reject — whatever the network does, every request of
a language group ends in a `resolve`, never a `reject`; and whenever the
retry loop exits in failure (retries exhausted or aborted), every request
of the group resolves with exactly its own original source text, so the
worst outcome a docs-variant caller can observe is the untranslated input.
In the lib variant, by contrast, a batch failure rejects every request in
the failed batch with the error. -/
theorem claim2 :
    (∀ (maxRetries : Nat) (net : Nat → NetResponse)
       (requests : List TranslationRequest),
       ∀ o ∈ (translateLanguageGroup maxRetries net requests).outcomes,
         ∃ v, o = Outcome.resolved v)
    ∧ (∀ (maxRetries : Nat) (net : Nat → NetResponse)
       (requests : List TranslationRequest) (msg : String),
       (attemptLoop maxRetries net 0 (maxRetries + 1)).2.2 = .failure msg →
         (translateLanguageGroup maxRetries net requests).outcomes
           = requests.map (fun r => Outcome.resolved r.text))
    ∧ (∀ (msg : String) (batch : List LibRequest),
         libProcessBatchOutcomes (.err msg) batch
           = batch.map (fun _ => Outcome.rejected msg)) := by
  refine ⟨?_, ?_, ?_⟩
  · intro maxRetries net requests o ho
    have hf : ∃ f : TranslationRequest → String,
        (translateLanguageGroup maxRetries net requests).outcomes
          = requests.map (fun r => Outcome.resolved (f r)) := by
      rcases hx : (attemptLoop maxRetries net 0 (maxRetries + 1)).2.2 with ts | m
      · exact ⟨fun r =>
          resolveValue (dedupFirst (requests.map (fun q => q.text))) ts r.text,
          by simp [translateLanguageGroup, hx]⟩
      · exact ⟨fun r => r.text, by simp [translateLanguageGroup, hx]⟩
    obtain ⟨f, hfe⟩ := hf
    rw [hfe] at ho
    simp only [List.mem_map] at ho
    obtain ⟨r, _, rfl⟩ := ho
    exact ⟨f r, rfl⟩
  · intro maxRetries net requests msg hx
    simp [translateLanguageGroup, hx]
  · intro msg batch
    rfl

/-- C2 witness: a docs-variant group whose network always throws resolves
its request with its original text (never a rejection) — the retry loop
concretely exits in failure — while a concrete lib-variant failure
rejects. -/
theorem claim2_witness :
    (∃ v, Outcome.resolved "hello" = Outcome.resolved v)
    ∧ (translateLanguageGroup 3 (fun _ => .thrown "boom") [sampleReq]).outcomes
        = [sampleReq].map (fun r => Outcome.resolved r.text)
    ∧ libProcessBatchOutcomes (.err "boom") [{ text := "hello" }]
        = [{ text := "hello" : LibRequest }].map (fun _ => Outcome.rejected "boom") :=
  ⟨claim2.1 3 (fun _ => .thrown "boom") [sampleReq]
      (Outcome.resolved "hello") (by decide),
   claim2.2.1 3 (fun _ => .thrown "boom") [sampleReq] "boom" (by decide),
   claim2.2.2 "boom" [{ text := "hello" }]⟩

/-! ### C9 — cache entries are only added -/

theorem cacheHas_cacheSet_of (c : Cache) (k k1 v1 : String)
    (h : cacheHas c k = true) : cacheHas (cacheSet c k1 v1) k = true := by
  induction c with
  | nil => simp [cacheHas] at h
  | cons p rest ih =>
    obtain ⟨k0, v0⟩ := p
    by_cases h01 : k0 = k1
    · subst h01
      simp only [cacheSet, beq_self_eq_true, if_true]
      by_cases h0k : k0 = k
      · simp [cacheHas, List.find?, h0k]
      · simp only [cacheHas, List.find?] at h ⊢
        rw [show ((k0, v0).1 == k) = false by simpa using h0k] at h
        rw [show ((k0, v1).1 == k) = false by simpa using h0k]
        exact h
    · simp only [cacheSet, show (k0 == k1) = false by simpa using h01,
        Bool.false_eq_true, if_false]
      by_cases h0k : k0 = k
      · simp [cacheHas, List.find?, h0k]
      · simp only [cacheHas, List.find?] at h ⊢
        rw [show ((k0, v0).1 == k) = false by simpa using h0k] at h ⊢
        exact ih h

theorem cacheGet?_cacheSet_ne (c : Cache) (k k1 v1 : String) (h : k1 ≠ k) :
    cacheGet? (cacheSet c k1 v1) k = cacheGet? c k := by
  induction c with
  | nil =>
    simp [cacheSet, cacheGet?, List.find?, show (k1 == k) = false by simpa using h]
  | cons p rest ih =>
    obtain ⟨k0, v0⟩ := p
    by_cases h01 : k0 = k1
    · subst h01
      simp only [cacheSet, beq_self_eq_true, if_true]
      have h0k : k0 ≠ k := h
      simp [cacheGet?, List.find?, show (k0 == k) = false by simpa using h0k]
    · simp only [cacheSet, show (k0 == k1) = false by simpa using h01,
        Bool.false_eq_true, if_false]
      by_cases h0k : k0 = k
      · simp [cacheGet?, List.find?, h0k]
      · simp only [cacheGet?, List.find?,
          show ((k0, v0).1 == k) = false by simpa using h0k] at ih ⊢
        exact ih

theorem applyCacheWrites_has (ws : List (String × String)) (c : Cache)
    (k : String) (h : cacheHas c k = true) :
    cacheHas (applyCacheWrites c ws) k = true := by
  induction ws generalizing c with
  | nil => exact h
  | cons w rest ih =>
    obtain ⟨k1, v1⟩ := w
    exact ih _ (cacheHas_cacheSet_of c k k1 v1 h)

theorem applyCacheWrites_get_ne (ws : List (String × String)) (c : Cache)
    (k : String) (h : ∀ w ∈ ws, w.1 ≠ k) :
    cacheGet? (applyCacheWrites c ws) k = cacheGet? c k := by
  induction ws generalizing c with
  | nil => rfl
  | cons w rest ih =>
    obtain ⟨k1, v1⟩ := w
    have h1 : k1 ≠ k := h (k1, v1) (List.mem_cons_self _ _)
    have h2 : ∀ w ∈ rest, w.1 ≠ k := fun w hw => h w (List.mem_cons_of_mem _ hw)
    calc cacheGet? (applyCacheWrites (cacheSet c k1 v1) rest) k
        = cacheGet? (cacheSet c k1 v1) k := ih _ h2
      _ = cacheGet? c k := cacheGet?_cacheSet_ne c k k1 v1 h1

theorem cacheWrites_keys (maxRetries : Nat) (net : Nat → NetResponse)
    (requests : List TranslationRequest) :
    ∀ w ∈ (translateLanguageGroup maxRetries net requests).cacheWrites,
      ∃ r ∈ requests, w.1 = r.cacheKey := by
  intro w hw
  rcases hx : (attemptLoop maxRetries net 0 (maxRetries + 1)).2.2 with ts | m
  · simp only [translateLanguageGroup, hx] at hw
    simp only [List.mem_map] at hw
    obtain ⟨r, hr, rfl⟩ := hw
    exact ⟨r, hr, rfl⟩
  · simp [translateLanguageGroup, hx] at hw

/-- C9 counterexample: the claim says a key already present in the cache
never has its value changed, but two requests sharing a `cacheKey` (both
enqueued while the key was absent) are both written by the success fan-out:
with texts `"a"`, `"b"` under the same key `"k"` and translations
`["A", "B"]`, the group writes `("k", "A")` then `("k", "B")`, so the value
of the present key `"k"` changes from `"A"` to `"B"`. -/
theorem claim9_counterexample :
    (translateLanguageGroup 3 (fun _ => .ok ["A", "B"])
        [{ text := "a", cacheKey := "k", targetLanguage := "es" },
         { text := "b", cacheKey := "k", targetLanguage := "es" }]).cacheWrites
      = [("k", "A"), ("k", "B")]
    ∧ cacheHas (cacheSet [] "k" "A") "k" = true
    ∧ cacheGet? (cacheSet [] "k" "A") "k" = some "A"
    ∧ cacheGet? (cacheSet (cacheSet [] "k" "A") "k" "B") "k" = some "B"
    ∧ ("A" : String) ≠ "B" := by
  decide

/-- C9 (amended): the batcher never removes a cache entry — every key
present before a group's writes is still present afterwards — and a key
that is not the `cacheKey` of any request in the executing group keeps its
exact value (the only writes are `cache.set(request.cacheKey, translation)`
for requests of a successful group); but a present key's value *can* be
overwritten when a request bearing that same `cacheKey` resolves with a
different translation. -/
theorem claim9 (maxRetries : Nat) (net : Nat → NetResponse)
    (requests : List TranslationRequest) (c : Cache) (k : String) :
    (cacheHas c k = true →
       cacheHas
         (applyCacheWrites c (translateLanguageGroup maxRetries net requests).cacheWrites)
         k = true)
    ∧ ((∀ r ∈ requests, r.cacheKey ≠ k) →
       cacheGet?
         (applyCacheWrites c (translateLanguageGroup maxRetries net requests).cacheWrites)
         k = cacheGet? c k) := by
  constructor
  · exact fun h => applyCacheWrites_has _ _ _ h
  · intro h
    apply applyCacheWrites_get_ne
    intro w hw
    obtain ⟨r, hr, hk⟩ := cacheWrites_keys maxRetries net requests w hw
    rw [hk]
    exact h r hr

/-- C9 witness: the amended statement evaluated for a successful concrete
group whose request has `cacheKey` `"k1"`, over a cache holding `"k0"`. -/
theorem claim9_witness :
    (cacheHas [("k0", "V")] "k0" = true →
       cacheHas
         (applyCacheWrites [("k0", "V")]
           (translateLanguageGroup 1 (fun _ => .ok ["HOLA"]) [sampleReq]).cacheWrites)
         "k0" = true)
    ∧ ((∀ r ∈ [sampleReq], r.cacheKey ≠ "k0") →
       cacheGet?
         (applyCacheWrites [("k0", "V")]
           (translateLanguageGroup 1 (fun _ => .ok ["HOLA"]) [sampleReq]).cacheWrites)
         "k0" = cacheGet? [("k0", "V")] "k0") :=
  claim9 1 (fun _ => .ok ["HOLA"]) [sampleReq] [("k0", "V")] "k0"

/-! ### C5 — retry policy -/

theorem attemptLoop_allRateLimited (maxRetries : Nat) (net : Nat → NetResponse)
    (ra : Nat → Option Nat) (h : ∀ n, net n = .rateLimited (ra n)) :
    ∀ (fuel attempt : Nat), attempt + fuel = maxRetries + 1 → 1 ≤ fuel →
      (attemptLoop maxRetries net attempt fuel).1 = fuel
      ∧ (attemptLoop maxRetries net attempt fuel).2.2
          = .failure (rateLimitExceededMsg maxRetries) := by
  intro fuel
  induction fuel with
  | zero => intro attempt _ hf; omega
  | succ f ih =>
    intro attempt hsum _
    by_cases hlt : attempt < maxRetries
    · have hstep : attemptLoop maxRetries net attempt (f + 1)
          = ((attemptLoop maxRetries net (attempt + 1) f).1 + 1,
             getBackoffDelay attempt (ra attempt)
               :: (attemptLoop maxRetries net (attempt + 1) f).2.1,
             (attemptLoop maxRetries net (attempt + 1) f).2.2) := by
        simp [attemptLoop, h attempt, hlt]
      have hrec := ih (attempt + 1) (by omega) (by omega)
      rw [hstep]
      exact ⟨by simp [hrec.1], hrec.2⟩
    · have hstep : attemptLoop maxRetries net attempt (f + 1)
          = (1, [], .failure (rateLimitExceededMsg maxRetries)) := by
        simp [attemptLoop, h attempt, hlt]
      rw [hstep]
      exact ⟨by omega, rfl⟩

theorem attemptLoop_thrown (maxRetries : Nat) (net : Nat → NetResponse)
    (msg : String) (h0 : net 0 = .thrown msg) (hnr : isRateLimitMessage msg = false) :
    attemptLoop maxRetries net 0 (maxRetries + 1) = (1, [], .failure msg) := by
  simp [attemptLoop, h0, hnr]

/-- C5: if every network attempt reports rate-limiting, a language group
makes exactly `1 + maxRetries` network calls and then records exactly one
`onError` invocation with `isRateLimitError = true` (and falls back to the
original texts); if the first network call throws a non-rate-limit error
(one whose message contains neither `'429'` nor `'rate limit'`, the
recognizable markers the code tests for), the group makes exactly 1 call,
records the `onError` invocation with `isRateLimitError = false`, and falls
back. -/
theorem claim5 (maxRetries : Nat) (requests : List TranslationRequest) :
    (∀ (net : Nat → NetResponse) (ra : Nat → Option Nat),
       (∀ n, net n = .rateLimited (ra n)) →
         (translateLanguageGroup maxRetries net requests).calls.length
             = 1 + maxRetries
         ∧ (translateLanguageGroup maxRetries net requests).errorCallback
             = some (rateLimitExceededMsg maxRetries, true)
         ∧ (translateLanguageGroup maxRetries net requests).outcomes
             = requests.map (fun r => .resolved r.text))
    ∧ (∀ (net : Nat → NetResponse) (msg : String),
       net 0 = .thrown msg → isRateLimitMessage msg = false →
         (translateLanguageGroup maxRetries net requests).calls.length = 1
         ∧ (translateLanguageGroup maxRetries net requests).errorCallback
             = some (msg, false)
         ∧ (translateLanguageGroup maxRetries net requests).outcomes
             = requests.map (fun r => .resolved r.text)) := by
  constructor
  · intro net ra h
    have hloop := attemptLoop_allRateLimited maxRetries net ra h
      (maxRetries + 1) 0 (by omega) (by omega)
    refine ⟨?_, ?_, ?_⟩
    · simp [translateLanguageGroup, hloop.2, hloop.1]
      omega
    · simp [translateLanguageGroup, hloop.2, isRateLimitMessage_exceeded]
    · simp [translateLanguageGroup, hloop.2]
  · intro net msg h0 hnr
    have hloop := attemptLoop_thrown maxRetries net msg h0 hnr
    refine ⟨?_, ?_, ?_⟩
    · simp [translateLanguageGroup, hloop]
    · simp [translateLanguageGroup, hloop, hnr]
    · simp [translateLanguageGroup, hloop]

/-- C5 witness: an always-rate-limited network with `maxRetries = 2` (three
calls, one rate-limit `onError`), and a generic first-call exception with
`maxRetries = 2` (one call, non-rate-limit `onError`). -/
theorem claim5_witness :
    ((translateLanguageGroup 2 (fun _ => .rateLimited none) [sampleReq]).calls.length
         = 1 + 2
       ∧ (translateLanguageGroup 2 (fun _ => .rateLimited none) [sampleReq]).errorCallback
           = some (rateLimitExceededMsg 2, true)
       ∧ (translateLanguageGroup 2 (fun _ => .rateLimited none) [sampleReq]).outcomes
           = [sampleReq].map (fun r => .resolved r.text))
    ∧ ((translateLanguageGroup 2 (fun _ => .thrown "boom") [sampleReq]).calls.length = 1
       ∧ (translateLanguageGroup 2 (fun _ => .thrown "boom") [sampleReq]).errorCallback
           = some ("boom", false)
       ∧ (translateLanguageGroup 2 (fun _ => .thrown "boom") [sampleReq]).outcomes
           = [sampleReq].map (fun r => .resolved r.text)) :=
  ⟨(claim5 2 [sampleReq]).1 (fun _ => .rateLimited none) (fun _ => none) (fun _ => rfl),
   (claim5 2 [sampleReq]).2 (fun _ => .thrown "boom") "boom" rfl (by decide)⟩

/-! ### Deduplication lemmas for C4 and C10 -/

theorem mem_dedupFirstAux (xs : List String) :
    ∀ (seen : List String) (y : String),
      y ∈ dedupFirstAux seen xs ↔ y ∈ xs ∧ y ∉ seen := by
  induction xs with
  | nil => intro seen y; simp [dedupFirstAux]
  | cons x xs ih =>
    intro seen y
    by_cases hx : seen.contains x = true
    · have hxs : x ∈ seen := List.elem_iff.mp hx
      simp only [dedupFirstAux, hx, if_true]
      rw [ih]
      constructor
      · rintro ⟨h1, h2⟩
        exact ⟨List.mem_cons_of_mem _ h1, h2⟩
      · rintro ⟨h1, h2⟩
        rcases List.mem_cons.mp h1 with rfl | h1
        · exact absurd hxs h2
        · exact ⟨h1, h2⟩
    · have hxs : x ∉ seen := fun hc => hx (List.elem_iff.mpr hc)
      simp only [dedupFirstAux, hx, Bool.false_eq_true, if_false]
      rw [List.mem_cons, ih (x :: seen)]
      constructor
      · rintro (rfl | ⟨h1, h2⟩)
        · exact ⟨List.mem_cons_self _ _, hxs⟩
        · have h2s : y ∉ seen := fun hc => h2 (List.mem_cons_of_mem _ hc)
          exact ⟨List.mem_cons_of_mem _ h1, h2s⟩
      · rintro ⟨h1, h2⟩
        by_cases hyx : y = x
        · exact Or.inl hyx
        · rcases List.mem_cons.mp h1 with rfl | h1
          · exact Or.inl rfl
          · refine Or.inr ⟨h1, ?_⟩
            intro hc
            rcases List.mem_cons.mp hc with rfl | hc
            · exact hyx rfl
            · exact h2 hc

theorem mem_dedupFirst (xs : List String) (y : String) :
    y ∈ dedupFirst xs ↔ y ∈ xs := by
  rw [dedupFirst, mem_dedupFirstAux]
  simp

theorem nodup_dedupFirstAux (xs : List String) :
    ∀ seen : List String, (dedupFirstAux seen xs).Nodup := by
  induction xs with
  | nil => intro seen; simp [dedupFirstAux]
  | cons x xs ih =>
    intro seen
    by_cases hx : seen.contains x = true
    · simpa only [dedupFirstAux, hx, if_true] using ih seen
    · simp only [dedupFirstAux, hx, Bool.false_eq_true, if_false]
      refine List.nodup_cons.mpr ⟨?_, ih (x :: seen)⟩
      intro hc
      have := (mem_dedupFirstAux xs (x :: seen) x).mp hc
      exact this.2 (List.mem_cons_self _ _)

theorem nodup_dedupFirst (xs : List String) : (dedupFirst xs).Nodup :=
  nodup_dedupFirstAux xs []

theorem pairwise_dedupFirstAux (xs : List String) :
    ∀ seen : List String,
      (dedupFirstAux seen xs).Pairwise
        (fun a b => List.indexOf a xs < List.indexOf b xs) := by
  induction xs with
  | nil => intro seen; simp [dedupFirstAux]
  | cons x xs ih =>
    intro seen
    by_cases hx : seen.contains x = true
    · have hxs : x ∈ seen := List.elem_iff.mp hx
      simp only [dedupFirstAux, hx, if_true]
      refine List.Pairwise.imp_of_mem ?_ (ih seen)
      intro a b ha hb hab
      have ha2 := (mem_dedupFirstAux xs seen a).mp ha
      have hb2 := (mem_dedupFirstAux xs seen b).mp hb
      have hax : a ≠ x := fun he => ha2.2 (he ▸ hxs)
      have hbx : b ≠ x := fun he => hb2.2 (he ▸ hxs)
      rw [List.indexOf_cons_ne _ (Ne.symm hax), List.indexOf_cons_ne _ (Ne.symm hbx)]
      omega
    · simp only [dedupFirstAux, hx, Bool.false_eq_true, if_false]
      refine List.pairwise_cons.mpr ⟨?_, ?_⟩
      · intro b hb
        have hb2 := (mem_dedupFirstAux xs (x :: seen) b).mp hb
        have hbx : b ≠ x := fun he => hb2.2 (he ▸ List.mem_cons_self x seen)
        rw [List.indexOf_cons_self, List.indexOf_cons_ne _ (Ne.symm hbx)]
        omega
      · refine List.Pairwise.imp_of_mem ?_ (ih (x :: seen))
        intro a b ha hb hab
        have ha2 := (mem_dedupFirstAux xs (x :: seen) a).mp ha
        have hb2 := (mem_dedupFirstAux xs (x :: seen) b).mp hb
        have hax : a ≠ x := fun he => ha2.2 (he ▸ List.mem_cons_self x seen)
        have hbx : b ≠ x := fun he => hb2.2 (he ▸ List.mem_cons_self x seen)
        rw [List.indexOf_cons_ne _ (Ne.symm hax), List.indexOf_cons_ne _ (Ne.symm hbx)]
        omega

theorem pairwise_dedupFirst (xs : List String) :
    (dedupFirst xs).Pairwise
      (fun a b => List.indexOf a xs < List.indexOf b xs) :=
  pairwise_dedupFirstAux xs []

/-! ### C4 — one deduplicated call per language group -/

theorem attemptLoop_firstOk (maxRetries : Nat) (net : Nat → NetResponse)
    (ts : List String) (h0 : net 0 = .ok ts) :
    attemptLoop maxRetries net 0 (maxRetries + 1) = (1, [], .success ts) := by
  simp [attemptLoop, h0]

/-- C4: for every language group of a batch, a successful first attempt
issues exactly one network call whose texts array is the group's distinct
source texts in order of first occurrence (no duplicates, each text of the
group present, ordered by first index in the group); every request resolves
with the translation mapped to its own source text, so requests sharing a
source text receive the same value. -/
theorem claim4 (maxRetries : Nat) (net : Nat → NetResponse)
    (batch : List TranslationRequest) (ts : List String) (h0 : net 0 = .ok ts) :
    ∀ g ∈ groupByLanguage batch,
      (translateLanguageGroup maxRetries net g.2).calls
          = [dedupFirst (g.2.map (fun r => r.text))]
      ∧ (dedupFirst (g.2.map (fun r => r.text))).Nodup
      ∧ (∀ x, x ∈ dedupFirst (g.2.map (fun r => r.text))
            ↔ x ∈ g.2.map (fun r => r.text))
      ∧ (dedupFirst (g.2.map (fun r => r.text))).Pairwise
          (fun a b => List.indexOf a (g.2.map (fun r => r.text))
            < List.indexOf b (g.2.map (fun r => r.text)))
      ∧ (translateLanguageGroup maxRetries net g.2).outcomes
          = g.2.map (fun r => .resolved
              (resolveValue (dedupFirst (g.2.map (fun q => q.text))) ts r.text))
      ∧ (∀ r1 ∈ g.2, ∀ r2 ∈ g.2, r1.text = r2.text →
          resolveValue (dedupFirst (g.2.map (fun q => q.text))) ts r1.text
            = resolveValue (dedupFirst (g.2.map (fun q => q.text))) ts r2.text) := by
  intro g _
  have hloop := attemptLoop_firstOk maxRetries net ts h0
  refine ⟨?_, nodup_dedupFirst _, fun x => mem_dedupFirst _ x,
    pairwise_dedupFirst _, ?_, ?_⟩
  · simp [translateLanguageGroup, hloop]
  · simp [translateLanguageGroup, hloop]
  · intro r1 _ r2 _ he
    rw [he]

/-- C4 witness: a concrete batch with two languages and a duplicated text
in the `"es"` group. -/
theorem claim4_witness :
    (translateLanguageGroup 3
        (fun _ => .ok ["HOLA", "MUNDO"])
        [{ text := "hello", cacheKey := "a", targetLanguage := "es" },
         { text := "world", cacheKey := "b", targetLanguage := "es" },
         { text := "hello", cacheKey := "c", targetLanguage := "es" }]).calls
      = [["hello", "world"]]
    ∧ (translateLanguageGroup 3
        (fun _ => .ok ["HOLA", "MUNDO"])
        [{ text := "hello", cacheKey := "a", targetLanguage := "es" },
         { text := "world", cacheKey := "b", targetLanguage := "es" },
         { text := "hello", cacheKey := "c", targetLanguage := "es" }]).outcomes
      = [.resolved "HOLA", .resolved "MUNDO", .resolved "HOLA"] := by
  have h := claim4 3 (fun _ => .ok ["HOLA", "MUNDO"])
    [{ text := "hello", cacheKey := "a", targetLanguage := "es" },
     { text := "world", cacheKey := "b", targetLanguage := "es" },
     { text := "hello", cacheKey := "c", targetLanguage := "es" }]
    ["HOLA", "MUNDO"] rfl
    ("es",
     [{ text := "hello", cacheKey := "a", targetLanguage := "es" },
      { text := "world", cacheKey := "b", targetLanguage := "es" },
      { text := "hello", cacheKey := "c", targetLanguage := "es" }])
    (by decide)
  refine ⟨?_, ?_⟩
  · exact h.1
  · rw [h.2.2.2.2.1]
    decide

/-! ### C10 — success-path resolution values -/

/-- The value C10 says a request resolves with on a successful response:
the server translation at the index of the request's text in the
unique-texts list when that entry exists and is non-empty, and the original
source text otherwise.  This is the claim-side characterization, compared
below with `resolveValue`, the value the code computes. -/
def specResolvedValue (uniqueTexts translations : List String)
    (text : String) : String :=
  match translations.get? (List.indexOf text uniqueTexts) with
  | some t => if t = "" then text else t
  | none => text

theorem mapGet_entriesFrom (ts : List String) (text : String) :
    ∀ (uniq : List String) (i : Nat), text ∈ uniq →
      mapGet? (translationMapEntriesFrom ts i uniq) text
        = some (mappedTranslation ts (i + List.indexOf text uniq) text) := by
  intro uniq
  induction uniq with
  | nil => intro i h; cases h
  | cons u us ih =>
    intro i h
    by_cases hu : u = text
    · subst hu
      simp [translationMapEntriesFrom, mapGet?, List.find?, List.indexOf_cons_self]
    · have htext : text ∈ us := by
        rcases List.mem_cons.mp h with rfl | h2
        · exact absurd rfl hu
        · exact h2
      rw [List.indexOf_cons_ne _ hu]
      simp only [translationMapEntriesFrom, mapGet?, List.find?]
      rw [show ((u, mappedTranslation ts i u).1 == text) = false by simpa using hu]
      have hrec := ih (i + 1) htext
      simp only [mapGet?] at hrec
      rw [hrec, show i + 1 + List.indexOf text us = i + (List.indexOf text us + 1) by omega]

theorem resolveValue_eq_spec (uniq ts : List String) (text : String)
    (h : text ∈ uniq) :
    resolveValue uniq ts text = specResolvedValue uniq ts text := by
  unfold resolveValue specResolvedValue translationMapEntries
  rw [mapGet_entriesFrom ts text uniq 0 h]
  simp only [Nat.zero_add]
  unfold mappedTranslation
  rcases hts : ts.get? (List.indexOf text uniq) with _ | t
  · simp
  · by_cases ht : t = ""
    · simp [ht]
    · simp [ht]

/-- C10: on a successful network response, every request of the group
resolves with the server translation at its text's index in the
unique-texts list when that entry exists and is a non-empty string, and
with its original source text otherwise (missing or empty entry); and the
value written to the cache under the request's `cacheKey` is exactly the
value the request resolves with. -/
theorem claim10 (maxRetries : Nat) (net : Nat → NetResponse)
    (requests : List TranslationRequest) (ts : List String)
    (h0 : net 0 = .ok ts) :
    (translateLanguageGroup maxRetries net requests).outcomes
        = requests.map (fun r => Outcome.resolved
            (specResolvedValue (dedupFirst (requests.map (fun q => q.text))) ts r.text))
    ∧ (translateLanguageGroup maxRetries net requests).cacheWrites
        = requests.map (fun r =>
            (r.cacheKey,
             specResolvedValue (dedupFirst (requests.map (fun q => q.text))) ts r.text)) := by
  have hloop := attemptLoop_firstOk maxRetries net ts h0
  have hmem : ∀ r ∈ requests,
      r.text ∈ dedupFirst (requests.map (fun q => q.text)) := by
    intro r hr
    rw [mem_dedupFirst]
    exact List.mem_map_of_mem _ hr
  constructor
  · simp only [translateLanguageGroup, hloop]
    apply List.map_eq_map_iff.mpr
    intro r hr
    rw [resolveValue_eq_spec _ _ _ (hmem r hr)]
  · simp only [translateLanguageGroup, hloop]
    apply List.map_eq_map_iff.mpr
    intro r hr
    rw [resolveValue_eq_spec _ _ _ (hmem r hr)]

/-- A concrete two-request language group shared by the witnesses below:
two distinct texts under distinct cache keys, same target language. -/
def sampleReqs : List TranslationRequest :=
  [{ text := "hello", cacheKey := "k1", targetLanguage := "es" },
   { text := "world", cacheKey := "k2", targetLanguage := "es" }]

/-- C10 witness: two requests, a translations array of length 1 whose only
entry is non-empty — the first request gets the server value, the second
falls back to its source text, and the cache writes carry the same
values. -/
theorem claim10_witness :
    (translateLanguageGroup 3 (fun _ => .ok ["HOLA"]) sampleReqs).outcomes
      = sampleReqs.map (fun r => Outcome.resolved
          (specResolvedValue (dedupFirst (sampleReqs.map (fun q => q.text)))
            ["HOLA"] r.text))
    ∧ (translateLanguageGroup 3 (fun _ => .ok ["HOLA"]) sampleReqs).cacheWrites
      = sampleReqs.map (fun r =>
          (r.cacheKey,
           specResolvedValue (dedupFirst (sampleReqs.map (fun q => q.text)))
            ["HOLA"] r.text)) :=
  claim10 3 (fun _ => .ok ["HOLA"]) sampleReqs ["HOLA"] rfl

/-! ### C1 — mutual exclusion of batch executions -/

/-- The mutual-exclusion invariant: at most one batch execution is in
flight, and the `processing` flag is set exactly while one is. -/
def MutexInv (s : BatcherState) : Prop :=
  s.inFlight.length ≤ 1 ∧ (s.processing = true ↔ s.inFlight ≠ [])

theorem mutexInv_finally {s : BatcherState} (h : s.inFlight = []) :
    MutexInv (processNextBatchFinally s) := by
  unfold processNextBatchFinally MutexInv
  by_cases hq : s.queue.isEmpty <;> simp [hq, h]

theorem mutexInv_enter (cfg : Config) {s : BatcherState} (h : MutexInv s) :
    MutexInv (processNextBatchEnter cfg s) := by
  by_cases hp : s.processing = true
  · simpa [processNextBatchEnter, hp] using h
  · have hin : s.inFlight = [] := by
      by_contra hne
      exact hp (h.2.mpr hne)
    by_cases hb : (s.queue.take cfg.maxBatchSize).isEmpty
    · simp only [processNextBatchEnter, hp, Bool.false_eq_true, if_false, hb, if_true]
      exact mutexInv_finally (by simpa using hin)
    · simp only [processNextBatchEnter, hp, Bool.false_eq_true, if_false, hb]
      constructor
      · simp [hin]
      · simp

theorem mutexInv_maybe (cfg : Config) {s : BatcherState} (h : MutexInv s) :
    MutexInv (maybeStartBatch cfg s) := by
  unfold maybeStartBatch
  by_cases h1 : cfg.maxBatchSize ≤ s.queue.length ∧ s.processing = false
  · rw [if_pos h1]
    exact mutexInv_enter cfg h
  · rw [if_neg h1]
    by_cases h2 : s.processing = true
    · rw [if_pos h2]
      exact h
    · rw [if_neg h2]
      by_cases h3 : s.scheduled = true
      · rw [if_pos h3]
        exact h
      · rw [if_neg h3]
        exact h

theorem mutexInv_step (cfg : Config) {s : BatcherState} (e : Event)
    (h : MutexInv s) : MutexInv (stepEvent cfg s e) := by
  cases e with
  | call req =>
    simp only [stepEvent, translate]
    by_cases hc : cacheHas s.cache req.cacheKey = true
    · simpa [hc] using h
    · simp only [hc, Bool.false_eq_true, if_false]
      exact mutexInv_maybe cfg h
  | timerFire =>
    simp only [stepEvent]
    by_cases hs : s.scheduled = true
    · simp only [hs, if_true]
      exact mutexInv_enter cfg h
    · simpa [hs] using h
  | retriggerFire =>
    simp only [stepEvent]
    rcases hr : s.retriggers with _ | n
    · exact h
    · exact mutexInv_enter cfg h
  | execDone writes =>
    simp only [stepEvent]
    rcases hf : s.inFlight with _ | ⟨b, rest⟩
    · exact h
    · have hlen := h.1
      rw [hf] at hlen
      simp only [List.length_cons] at hlen
      have hrest : rest = [] := List.eq_nil_of_length_eq_zero (by omega)
      exact mutexInv_finally (by simpa using hrest)
  | doClear =>
    simpa [stepEvent, clear] using h

/-- C1: the `processing` flag is the batch-execution mutex.  First part:
when `processing` is already true, `processNextBatch` returns immediately,
changing nothing — in particular not the queue.  Second part: in every
state reachable from construction, at most one batch execution is in
flight, and `processing` is true exactly while one is (the flag is set in
the same synchronous segment that dispatches the batch — before the first
suspension point — and cleared only by the `finally` that runs when the
executor, retry loops included, has fully returned). -/
theorem claim1 (cfg : Config) :
    (∀ s : BatcherState, s.processing = true → processNextBatchEnter cfg s = s)
    ∧ (∀ s : BatcherState, Reachable cfg s →
        s.inFlight.length ≤ 1 ∧ (s.processing = true ↔ s.inFlight ≠ [])) := by
  constructor
  · intro s h
    simp [processNextBatchEnter, h]
  · intro s h
    induction h with
    | init c0 => exact ⟨by simp [initState], by simp [initState]⟩
    | step h e ih => exact mutexInv_step _ e ih

/-- C1 witness: the guard evaluated on a concrete mid-flight state (the
state is returned untouched), and the invariant at a concrete reachable
state. -/
theorem claim1_witness :
    processNextBatchEnter {} sampleState = sampleState
    ∧ ((initState []).inFlight.length ≤ 1
        ∧ ((initState []).processing = true ↔ (initState []).inFlight ≠ [])) :=
  ⟨(claim1 {}).1 sampleState rfl, (claim1 {}).2 (initState []) (.init [])⟩

/-! ### C3 — the finally block and the drain guarantee -/

/-- One unassisted drain round: a pending zero-delay retrigger fires
(dispatching the next batch) and that batch's execution completes. -/
def drainCycle (cfg : Config) (s : BatcherState) : BatcherState :=
  stepEvent cfg (stepEvent cfg s .retriggerFire) (.execDone [])

theorem drainCycle_empty (cfg : Config) {s : BatcherState}
    (hp : s.processing = false) (hf : s.inFlight = []) (hq : s.queue = []) :
    (drainCycle cfg s).queue = []
    ∧ (drainCycle cfg s).dispatched = s.dispatched
    ∧ (drainCycle cfg s).processing = false
    ∧ (drainCycle cfg s).inFlight = [] := by
  rcases hr : s.retriggers with _ | n
  · simp [drainCycle, stepEvent, hr, hf, hq, hp]
  · simp [drainCycle, stepEvent, hr, hf, hq, hp, processNextBatchEnter,
      processNextBatchFinally]

theorem drainCycle_nonempty (cfg : Config) (hmax : 1 ≤ cfg.maxBatchSize)
    {s : BatcherState} (hp : s.processing = false) (hf : s.inFlight = [])
    (hq : s.queue ≠ []) (hr1 : 1 ≤ s.retriggers) :
    (drainCycle cfg s).queue = s.queue.drop cfg.maxBatchSize
    ∧ (drainCycle cfg s).dispatched
        = s.dispatched ++ s.queue.take cfg.maxBatchSize
    ∧ (drainCycle cfg s).processing = false
    ∧ (drainCycle cfg s).inFlight = []
    ∧ ((drainCycle cfg s).queue ≠ [] → 1 ≤ (drainCycle cfg s).retriggers) := by
  rcases hr : s.retriggers with _ | n
  · omega
  · have hbatch : (s.queue.take cfg.maxBatchSize).isEmpty = false := by
      rcases hqq : s.queue with _ | ⟨q0, qs⟩
      · exact absurd hqq hq
      · rcases hmm : cfg.maxBatchSize with _ | m
        · omega
        · simp [hqq, hmm, List.take_succ_cons]
    have hstep1 : stepEvent cfg s .retriggerFire
        = { queue := s.queue.drop cfg.maxBatchSize, processing := true,
            scheduled := false, retriggers := n,
            inFlight := [s.queue.take cfg.maxBatchSize], cache := s.cache,
            dispatched := s.dispatched ++ s.queue.take cfg.maxBatchSize } := by
      simp [stepEvent, hr, processNextBatchEnter, hp, hbatch, hf]
    have hstep2 : drainCycle cfg s = processNextBatchFinally
        { queue := s.queue.drop cfg.maxBatchSize, processing := true,
          scheduled := false, retriggers := n, inFlight := [],
          cache := s.cache,
          dispatched := s.dispatched ++ s.queue.take cfg.maxBatchSize } := by
      rw [drainCycle, hstep1]
      simp [stepEvent, applyCacheWrites]
    rw [hstep2]
    unfold processNextBatchFinally
    by_cases hd : (List.drop cfg.maxBatchSize s.queue).isEmpty = true
    · have hd2 := List.isEmpty_iff.mp hd
      simp only [hd, if_true]
      exact ⟨trivial, trivial, trivial, trivial, fun hc => absurd hd2 hc⟩
    · simp only [hd, Bool.false_eq_true, if_false]
      exact ⟨trivial, trivial, trivial, trivial, fun _ => by omega⟩

theorem drain_terminates (cfg : Config) (hmax : 1 ≤ cfg.maxBatchSize) :
    ∀ (n : Nat) (s : BatcherState),
      s.processing = false → s.inFlight = [] →
      (s.queue ≠ [] → 1 ≤ s.retriggers) → s.queue.length ≤ n →
      ((drainCycle cfg)^[n] s).queue = []
      ∧ ((drainCycle cfg)^[n] s).dispatched = s.dispatched ++ s.queue := by
  intro n
  induction n with
  | zero =>
    intro s _ _ _ hl
    have hq : s.queue = [] := List.eq_nil_of_length_eq_zero (by omega)
    simp [hq]
  | succ n ih =>
    intro s hp hf hr hl
    rw [Function.iterate_succ_apply]
    by_cases hq : s.queue = []
    · obtain ⟨h1, h2, h3, h4⟩ := drainCycle_empty cfg hp hf hq
      have hrec := ih (drainCycle cfg s) h3 h4 (by simp [h1]) (by simp [h1])
      refine ⟨hrec.1, ?_⟩
      rw [hrec.2, h2, h1, hq]
    · obtain ⟨h1, h2, h3, h4, h5⟩ :=
        drainCycle_nonempty cfg hmax hp hf hq (hr hq)
      have hlen : (drainCycle cfg s).queue.length ≤ n := by
        rw [h1, List.length_drop]
        have : s.queue.length ≠ 0 := by
          intro hz
          exact hq (List.eq_nil_of_length_eq_zero hz)
        omega
      have hrec := ih (drainCycle cfg s) h3 h4 h5 hlen
      refine ⟨hrec.1, ?_⟩
      rw [hrec.2, h2, h1, List.append_assoc, List.take_append_drop]

/-- C3: whenever a batch execution finishes — the `finally` block runs on
success, on failure, and on an exception inside the batch — `processing`
is reset to false, and exactly when the queue is non-empty at that moment
one more zero-delay execution is scheduled; consequently, a batcher left
alone after a batch finishes (only its own retriggers firing and batches
completing, no external trigger) drains completely: after at most
`queue.length` rounds the queue is empty and every queued request has been
dispatched, in order. -/
theorem claim3 (cfg : Config) (hmax : 1 ≤ cfg.maxBatchSize) :
    (∀ s : BatcherState,
       (processNextBatchFinally s).processing = false
       ∧ (s.queue ≠ [] →
            (processNextBatchFinally s).retriggers = s.retriggers + 1)
       ∧ (s.queue = [] →
            (processNextBatchFinally s).retriggers = s.retriggers))
    ∧ (∀ (n : Nat) (s : BatcherState),
       s.processing = false → s.inFlight = [] →
       (s.queue ≠ [] → 1 ≤ s.retriggers) → s.queue.length ≤ n →
       ((drainCycle cfg)^[n] s).queue = []
       ∧ ((drainCycle cfg)^[n] s).dispatched = s.dispatched ++ s.queue) := by
  constructor
  · intro s
    refine ⟨?_, ?_, ?_⟩
    · unfold processNextBatchFinally
      by_cases hq : s.queue.isEmpty <;> simp [hq]
    · intro hq
      have : s.queue.isEmpty = false := by
        rcases hqq : s.queue with _ | _
        · exact absurd hqq hq
        · simp [hqq]
      simp [processNextBatchFinally, this]
    · intro hq
      simp [processNextBatchFinally, hq]
  · exact drain_terminates cfg hmax

/-- A concrete idle state with one queued request and one pending
zero-delay retrigger, as left behind by a finished batch. -/
def drainState : BatcherState :=
  { queue := [sampleReq], processing := false, scheduled := false,
    retriggers := 1, inFlight := [], cache := [], dispatched := [] }

/-- C3 witness: the finally clause evaluated on a concrete mid-flight
state with a non-empty queue, and the drain guarantee on a concrete
one-request queue (one round empties it and dispatches the request). -/
theorem claim3_witness :
    ((processNextBatchFinally sampleState).processing = false
       ∧ (sampleState.queue ≠ [] →
            (processNextBatchFinally sampleState).retriggers
              = sampleState.retriggers + 1)
       ∧ (sampleState.queue = [] →
            (processNextBatchFinally sampleState).retriggers
              = sampleState.retriggers))
    ∧ (((drainCycle {})^[1] drainState).queue = []
       ∧ ((drainCycle {})^[1] drainState).dispatched
           = drainState.dispatched ++ drainState.queue) :=
  ⟨(claim3 {} (by decide)).1 sampleState,
   (claim3 {} (by decide)).2 1 drainState rfl rfl (fun _ => by decide) (by decide)⟩

end VidRead
